import Mathlib

/-!
Verification of the cross-chain auction SDK
(`packages/resolver/sui_move/sdk/python_example.py`).

Amounts and prices cross the Python API as decimal strings; we embed
Python's `str`/`int` round trip on non-negative integers via `Nat.repr`
and an explicit decimal parser, and prove the round trip exact.  The
on-chain Move module `cross_chain_auction` (pricing curve, escrow state
machine) is not part of the SDK sources; where a property is decided by
that module we model it from the specification, as marked on each
definition.
-/

namespace CrossChainAuctionSDK

/-- Embedding of Python `int(...)` on a canonical non-negative decimal
string: fold the decimal digits most-significant first. -/
def decToNat (s : String) : Nat :=
  s.data.foldl (fun a c => 10 * a + (c.toNat - 48)) 0

/- Round trip: parsing the decimal rendering `Nat.repr n` (the embedding
of Python `str(n)`) recovers `n`. -/

theorem digitChar_toNat_sub (d : Nat) (h : d < 10) :
    (Nat.digitChar d).toNat - 48 = d := by
  interval_cases d <;> rfl

theorem toDigitsCore_eq_digits :
    ∀ (fuel n : Nat) (ds : List Char), 0 < n → n < 10 ^ fuel →
      Nat.toDigitsCore 10 fuel n ds
        = ((Nat.digits 10 n).reverse.map Nat.digitChar) ++ ds := by
  intro fuel
  induction fuel with
  | zero =>
    intro n ds hn hlt
    simp at hlt
    omega
  | succ fuel ih =>
    intro n ds hn hlt
    rw [Nat.toDigitsCore]
    by_cases h10 : n / 10 = 0
    · have hnlt : n < 10 := by omega
      rw [if_pos h10]
      rw [Nat.digits_def' (by norm_num : 1 < 10) hn, h10, Nat.digits_zero]
      simp [Nat.mod_eq_of_lt hnlt]
    · rw [if_neg h10]
      have hpos : 0 < n / 10 := Nat.pos_of_ne_zero h10
      have hdiv : n / 10 < 10 ^ fuel := by
        rw [Nat.div_lt_iff_lt_mul (by norm_num : 0 < 10)]
        calc n < 10 ^ (fuel + 1) := hlt
        _ = 10 ^ fuel * 10 := by ring
      rw [ih (n / 10) (Nat.digitChar (n % 10) :: ds) hpos hdiv]
      rw [Nat.digits_def' (by norm_num : 1 < 10) hn]
      simp

theorem foldl_digits_reverse (l : List Nat) (a : Nat) (hd : ∀ d ∈ l, d < 10) :
    List.foldl (fun a c => 10 * a + (c.toNat - 48)) a
        (l.reverse.map Nat.digitChar)
      = a * 10 ^ l.length + Nat.ofDigits 10 l := by
  induction l generalizing a with
  | nil => simp
  | cons d t ih =>
    have hdt : ∀ x ∈ t, x < 10 := fun x hx => hd x (List.mem_cons_of_mem d hx)
    have hd10 : d < 10 := hd d (List.mem_cons_self d t)
    simp only [List.reverse_cons, List.map_append, List.foldl_append,
      List.map_cons, List.map_nil, List.foldl_cons, List.foldl_nil]
    rw [ih _ hdt, digitChar_toNat_sub d hd10, Nat.ofDigits_cons]
    simp [List.length_cons, pow_succ]
    ring

theorem decToNat_repr (n : Nat) : decToNat (Nat.repr n) = n := by
  rcases Nat.eq_zero_or_pos n with h0 | hpos
  · subst h0; rfl
  · have hfuel : n < 10 ^ (n + 1) := by
      calc n < 2 ^ n := Nat.lt_two_pow n
      _ ≤ 10 ^ n := Nat.pow_le_pow_left (by norm_num) n
      _ ≤ 10 ^ (n + 1) := Nat.pow_le_pow_right (by norm_num) (Nat.le_succ n)
    show decToNat (Nat.toDigits 10 n).asString = n
    rw [Nat.toDigits, toDigitsCore_eq_digits (n + 1) n [] hpos hfuel]
    show List.foldl _ 0 (((Nat.digits 10 n).reverse.map Nat.digitChar) ++ []) = n
    rw [List.append_nil,
      foldl_digits_reverse _ 0 (fun d hd => Nat.digits_lt_base (by norm_num) hd)]
    simp [Nat.ofDigits_digits]

/-- Embedding of `CrossChainAuctionSDK.calculate_protocol_fee`:
`fee = (int(price) * fee_bps) // 10000`, returned as `str(fee)`.  The
Python default for `fee_bps` is 250. -/
def calculate_protocol_fee (price : String) (fee_bps : Nat) : String :=
  Nat.repr (decToNat price * fee_bps / 10000)

/-- Embedding of `CrossChainAuctionSDK.calculate_total_payment`:
`str(int(price) + int(calculate_protocol_fee(price, fee_bps)))`. -/
def calculate_total_payment (price : String) (fee_bps : Nat) : String :=
  Nat.repr (decToNat price + decToNat (calculate_protocol_fee price fee_bps))

end CrossChainAuctionSDK

namespace CrossChainAuctionSDK

/-- C2: for every non-negative integer price given as a decimal string and
every `fee_bps`, the protocol fee is `floor(price * fee_bps / 10000)` and
the total payment is `price + fee`; in particular with `fee_bps = 250`
(the Python default) and price `"1000000000"`, the fee is `"25000000"`
and the total payment is `"1025000000"`. -/
theorem c2_protocol_fee_and_total (n fee_bps : Nat) :
    calculate_protocol_fee (Nat.repr n) fee_bps = Nat.repr (n * fee_bps / 10000)
    ∧ calculate_total_payment (Nat.repr n) fee_bps
        = Nat.repr (n + n * fee_bps / 10000)
    ∧ calculate_protocol_fee "1000000000" 250 = "25000000"
    ∧ calculate_total_payment "1000000000" 250 = "1025000000" := by
  refine ⟨?_, ?_, ?_, ?_⟩
  · rw [calculate_protocol_fee, decToNat_repr]
  · rw [calculate_total_payment, calculate_protocol_fee, decToNat_repr,
      decToNat_repr]
  · rfl
  · rfl

/-- C7 counterexample: the claim says the fee operation fails with
`Overflow` whenever `price * fee_bps` exceeds the chain's native integer
width (2^64).  The Python code performs `(int(price) * fee_bps) // 10000`
on arbitrary-precision integers and never fails: at
`price = str(2^64 * 10)` and `fee_bps = 250` — whose product
`2^64 * 2500` far exceeds `2^64` — it returns the exact quotient
`str(2^62)` instead of failing. -/
theorem c7_no_overflow_counterexample :
    calculate_protocol_fee (Nat.repr (2 ^ 64 * 10)) 250 = Nat.repr (2 ^ 62)
    ∧ 2 ^ 64 < 2 ^ 64 * 10 * 250 := by
  constructor
  · rfl
  · norm_num

/-- C7 (amended): the fee calculation uses arbitrary-precision integer
arithmetic and cannot overflow: for every price and `fee_bps`, even when
`price * fee_bps` exceeds 2^64, it returns exactly
`floor(price * fee_bps / 10000)` — it neither wraps nor fails. -/
theorem c7_amended_fee_exact_beyond_width (n fee_bps : Nat)
    (hbig : 2 ^ 64 < n * fee_bps) :
    decToNat (calculate_protocol_fee (Nat.repr n) fee_bps)
      = n * fee_bps / 10000 := by
  rw [calculate_protocol_fee, decToNat_repr, decToNat_repr]

theorem c7_amended_witness :
    decToNat (calculate_protocol_fee (Nat.repr (2 ^ 64 * 10)) 250)
      = 2 ^ 64 * 10 * 250 / 10000 :=
  c7_amended_fee_exact_beyond_width (2 ^ 64 * 10) 250 (by norm_num)

/-- Embedding of `CrossChainAuctionSDK.is_timelock_expired`: the Python
code reads the wall clock (`int(time.time() * 1000)`), which we pass
explicitly as `now_ms`, and returns `now_ms > timelock` — a strict
comparison. -/
def is_timelock_expired (timelock : Nat) (now_ms : Nat) : Bool :=
  now_ms > timelock

/-- C3 counterexample: the claim says the expiry check is true exactly
when `now ≥ timelock`, in particular true when `now` equals the
timelock; the code uses a strict comparison, so at
`timelock = now = 1000` the check returns `false`. -/
theorem c3_expiry_at_boundary_counterexample :
    is_timelock_expired 1000 1000 = false := by
  rfl

/-- C3 (amended): the timelock-expiry check that gates refund returns
true exactly when `now > timelock` — in particular it is false when
`now` equals the timelock — so with `timelock = now + 1000` the check is
false at `now + 500` (refund fails with `TimelockNotExpired`) and true
at `now + 1001` (refund succeeds). -/
theorem c3_amended_expiry_strict (timelock now : Nat) :
    (is_timelock_expired timelock now = true ↔ timelock < now)
    ∧ is_timelock_expired (now + 1000) (now + 500) = false
    ∧ is_timelock_expired (now + 1000) (now + 1001) = true := by
  refine ⟨?_, ?_, ?_⟩
  · simp [is_timelock_expired]
  · simp [is_timelock_expired]
  · simp [is_timelock_expired]

/-- Dutch-auction pricing parameters (prices in smallest units,
times in milliseconds since epoch). -/
structure AuctionPricing where
  start_price : Nat
  end_price : Nat
  start_time : Nat
  duration : Nat

/-- Modelled from the spec: the Dutch-auction price curve lives in the
on-chain Move module `cross_chain_auction`, which is not among the SDK
sources (the SDK's `get_current_price` is an explicit placeholder that
defers to an on-chain view function).  Per spec §4.3: `start_price` for
`now ≤ start_time`, `end_price` for `now ≥ start_time + duration`,
otherwise `start_price - (start_price - end_price) * (now - start_time)
/ duration` in integer arithmetic truncating toward zero. -/
def current_price (a : AuctionPricing) (now : Nat) : Nat :=
  if now ≤ a.start_time then a.start_price
  else if a.start_time + a.duration ≤ now then a.end_price
  else a.start_price - (a.start_price - a.end_price) * (now - a.start_time) / a.duration

/-- C1: the current-price query returns `start_price` when
`now ≤ start_time`, `end_price` when `now ≥ start_time + duration`, and
otherwise the linear interpolation
`start_price - (start_price - end_price) * (now - start_time) / duration`
computed in integer arithmetic truncating toward zero (stated over ℤ
with `Int.tdiv`); with `start_price = 500_000_000`,
`end_price = 100_000_000` and `duration = 3_600_000` ms, the price
halfway (`now = start_time + 1_800_000`) is `300_000_000`. -/
theorem c1_current_price_cases (a : AuctionPricing) (now : Nat)
    (hdur : 0 < a.duration) (hpe : a.end_price ≤ a.start_price) :
    (now ≤ a.start_time → current_price a now = a.start_price)
    ∧ (a.start_time + a.duration ≤ now → current_price a now = a.end_price)
    ∧ (a.start_time < now → now < a.start_time + a.duration →
        (current_price a now : ℤ)
          = (a.start_price : ℤ)
            - Int.tdiv
                (((a.start_price : ℤ) - (a.end_price : ℤ))
                  * ((now : ℤ) - (a.start_time : ℤ)))
                (a.duration : ℤ))
    ∧ current_price ⟨500000000, 100000000, a.start_time, 3600000⟩
        (a.start_time + 1800000) = 300000000 := by
  refine ⟨?_, ?_, ?_, ?_⟩
  · intro h
    rw [current_price, if_pos h]
  · intro h
    rw [current_price, if_neg (by omega), if_pos h]
  · intro h1 h2
    rw [current_price, if_neg (by omega), if_neg (by omega)]
    have hsub : now - a.start_time ≤ a.duration := by omega
    have hq : (a.start_price - a.end_price) * (now - a.start_time) / a.duration
        ≤ a.start_price := by
      calc (a.start_price - a.end_price) * (now - a.start_time) / a.duration
          ≤ (a.start_price - a.end_price) * a.duration / a.duration :=
            Nat.div_le_div_right (Nat.mul_le_mul_left _ hsub)
      _ = a.start_price - a.end_price := Nat.mul_div_cancel _ hdur
      _ ≤ a.start_price := Nat.sub_le _ _
    rw [Nat.cast_sub hq, Int.ofNat_tdiv, Nat.cast_mul, Nat.cast_sub hpe,
      Nat.cast_sub (Nat.le_of_lt h1)]
  · show (if a.start_time + 1800000 ≤ a.start_time then 500000000
      else if a.start_time + 3600000 ≤ a.start_time + 1800000 then 100000000
      else 500000000
        - (500000000 - 100000000) * (a.start_time + 1800000 - a.start_time)
          / 3600000) = 300000000
    rw [if_neg (by omega), if_neg (by omega)]
    have h18 : a.start_time + 1800000 - a.start_time = 1800000 := by omega
    rw [h18]

theorem c1_witness :
    current_price ⟨500000000, 100000000, 0, 3600000⟩ (0 + 1800000)
      = 300000000 :=
  (c1_current_price_cases ⟨500000000, 100000000, 0, 3600000⟩ 1800000
    (by norm_num) (by norm_num)).2.2.2

/-- Lowercase hexadecimal rendering of a byte list, embedding Python's
`secrets.token_hex` output format: two hex digits per byte,
most-significant nibble first (`Nat.digitChar` yields `0`–`9`,
`a`–`f`). -/
def bytesToHex (bs : List Nat) : String :=
  (bs.flatMap (fun b => [Nat.digitChar (b / 16), Nat.digitChar (b % 16)])).asString

/-- Byte encoding of a string, embedding Python's `str.encode()`; for the
ASCII strings produced by `bytesToHex` the UTF-8 bytes are exactly the
code points. -/
def strBytes (s : String) : List Nat :=
  s.data.map Char.toNat

/-- Embedding of `CrossChainAuctionSDK.generate_secret`.  The two
effects are made explicit inputs: `randomBytes` stands for the 32 bytes
drawn by `secrets.token_hex(32)`, and `H` for the SHA3-256 digest
function from `hashlib` (its internals are not re-implemented; the
theorem quantifies over it).  The code hex-encodes the random bytes into
`secret` and hashes `secret.encode()`. -/
def generate_secret (H : List Nat → List Nat) (randomBytes : List Nat) :
    String × List Nat :=
  let secret := bytesToHex randomBytes
  (secret, H (strBytes secret))

theorem length_bytesToHex (bs : List Nat) :
    (bytesToHex bs).length = 2 * bs.length := by
  induction bs with
  | nil => rfl
  | cons b t ih =>
    show (bytesToHex (b :: t)).length = 2 * (b :: t).length
    have : bytesToHex (b :: t)
        = ⟨Nat.digitChar (b / 16) :: Nat.digitChar (b % 16)
            :: (bytesToHex t).data⟩ := by
      simp [bytesToHex, List.asString]
    rw [this]
    show (bytesToHex t).data.length + 1 + 1 = 2 * (t.length + 1)
    have ht : (bytesToHex t).data.length = 2 * t.length := ih
    omega

/-- C6: for every 32-byte random draw and every digest function `H`
producing 32-byte digests (as SHA3-256 does), `generate_secret` returns
a pair `(secret, commitment)` where `secret` is the hex encoding of the
32 drawn bytes (64 characters), and `commitment` is exactly
`H (secret.encode())` — so recomputing the hash of the returned secret's
byte encoding always equals the returned commitment, and the commitment
is 32 bytes. -/
theorem c6_generate_secret_commitment (H : List Nat → List Nat)
    (rb : List Nat) (hrb : rb.length = 32)
    (hH : ∀ bs, (H bs).length = 32) :
    (generate_secret H rb).2 = H (strBytes (generate_secret H rb).1)
    ∧ (generate_secret H rb).2.length = 32
    ∧ (generate_secret H rb).1 = bytesToHex rb
    ∧ (generate_secret H rb).1.length = 64 := by
  refine ⟨rfl, hH _, rfl, ?_⟩
  show (bytesToHex rb).length = 64
  rw [length_bytesToHex, hrb]

theorem c6_witness :
    (generate_secret (fun _ => List.replicate 32 0)
        (List.replicate 32 0)).2.length = 32
    ∧ (generate_secret (fun _ => List.replicate 32 0)
        (List.replicate 32 0)).1.length = 64 :=
  ⟨(c6_generate_secret_commitment (fun _ => List.replicate 32 0)
      (List.replicate 32 0) (by simp) (fun bs => by simp)).2.1,
   (c6_generate_secret_commitment (fun _ => List.replicate 32 0)
      (List.replicate 32 0) (by simp) (fun bs => by simp)).2.2.2⟩

/-- Escrow lifecycle states per spec §3 (the `Revealed` step is folded
into `release`, which verifies and releases in one operation, matching
the SDK's single `reveal_and_release` call and the dataclass booleans
`is_revealed`/`is_released`/`is_refunded`). -/
inductive EscrowState where
  | Locked
  | Released
  | Refunded
deriving DecidableEq

/-- Typed failures of the escrow operations, per spec §7.  The spec
leaves the too-late-release failure unnamed ("e.g., timelock passed");
we call it `TimelockExpired`. -/
inductive EscrowError where
  | InvalidState
  | AlreadyReleased
  | TimelockNotExpired
  | TimelockExpired
  | InvalidSecret
deriving DecidableEq

/-- Modelled from the spec: the escrow entity of the on-chain Move
module `cross_chain_auction` (the SDK's `Escrow` dataclass mirrors its
fields; the transition logic itself is not among the SDK sources).
Times are milliseconds since epoch. -/
structure EscrowRec where
  asset_amount : Nat
  commitment : List Nat
  timelock : Nat
  maker : String
  state : EscrowState
  revealed_secret : Option String
  beneficiary : Option String

/-- Spec §4.1 `verify`: recompute the hash of the secret's byte encoding
and compare for exact equality. -/
def verify (H : List Nat → List Nat) (secret : String)
    (commitment : List Nat) : Bool :=
  H (strBytes secret) = commitment

/-- Modelled from the spec (§4.2 `release`): requires state `Locked`, a
secret matching the commitment, and `now` strictly before the timelock;
on success transfers to the beneficiary and sets `Released`.  A repeat
release after success fails with `AlreadyReleased`; release after refund
fails with `InvalidState`. -/
def release (H : List Nat → List Nat) (e : EscrowRec) (secret : String)
    (benef : String) (now : Nat) : Except EscrowError EscrowRec :=
  match e.state with
  | .Released => .error .AlreadyReleased
  | .Refunded => .error .InvalidState
  | .Locked =>
    if verify H secret e.commitment then
      if now < e.timelock then
        .ok { e with state := .Released, revealed_secret := some secret,
                     beneficiary := some benef }
      else .error .TimelockExpired
    else .error .InvalidSecret

/-- Modelled from the spec (§4.2 `refund`): requires state `Locked` and
`now ≥ timelock`; on success returns the asset to the maker and sets
`Refunded`; before expiry fails with `TimelockNotExpired`; in a terminal
state fails with `InvalidState`. -/
def refund (e : EscrowRec) (now : Nat) : Except EscrowError EscrowRec :=
  match e.state with
  | .Locked =>
    if e.timelock ≤ now then .ok { e with state := .Refunded }
    else .error .TimelockNotExpired
  | _ => .error .InvalidState

/-- One submitted operation against an escrow. -/
inductive EscrowOp where
  | releaseOp (secret benef : String) (now : Nat)
  | refundOp (now : Nat)

/-- Apply one operation: on success the new state is kept, on failure the
escrow is unchanged (a failed ledger transaction mutates nothing). -/
def applyOp (H : List Nat → List Nat) (e : EscrowRec) (op : EscrowOp) :
    EscrowRec :=
  match op with
  | .releaseOp s b now =>
    match release H e s b now with
    | .ok e2 => e2
    | .error _ => e
  | .refundOp now =>
    match refund e now with
    | .ok e2 => e2
    | .error _ => e

/-- Run a sequence of release/refund operations. -/
def runOps (H : List Nat → List Nat) (e : EscrowRec) (ops : List EscrowOp) :
    EscrowRec :=
  ops.foldl (applyOp H) e

theorem applyOp_released (H : List Nat → List Nat) (e : EscrowRec)
    (op : EscrowOp) (h : e.state = .Released) :
    (applyOp H e op).state = .Released := by
  cases op with
  | releaseOp s b now => simp [applyOp, release, h]
  | refundOp now => simp [applyOp, refund, h]

theorem applyOp_refunded (H : List Nat → List Nat) (e : EscrowRec)
    (op : EscrowOp) (h : e.state = .Refunded) :
    (applyOp H e op).state = .Refunded := by
  cases op with
  | releaseOp s b now => simp [applyOp, release, h]
  | refundOp now => simp [applyOp, refund, h]

theorem runOps_released (H : List Nat → List Nat) (e : EscrowRec)
    (ops : List EscrowOp) (h : e.state = .Released) :
    (runOps H e ops).state = .Released := by
  induction ops generalizing e with
  | nil => exact h
  | cons op t ih => exact ih (applyOp H e op) (applyOp_released H e op h)

theorem runOps_refunded (H : List Nat → List Nat) (e : EscrowRec)
    (ops : List EscrowOp) (h : e.state = .Refunded) :
    (runOps H e ops).state = .Refunded := by
  induction ops generalizing e with
  | nil => exact h
  | cons op t ih => exact ih (applyOp H e op) (applyOp_refunded H e op h)

/-- C8: `Released` and `Refunded` are mutually exclusive and terminal.
Once an escrow is `Released`, no sequence of further operations ever
makes it `Refunded` (and symmetrically); moreover in a terminal state
the opposite transition observably fails — `refund` on a released
escrow and `release` on a refunded escrow return errors
(`InvalidState`), never a silent no-op success. -/
theorem c8_terminal_states_exclusive (H : List Nat → List Nat)
    (e : EscrowRec) (ops : List EscrowOp) :
    (∀ more, (runOps H e ops).state = .Released →
      (runOps H e (ops ++ more)).state = .Released)
    ∧ (∀ more, (runOps H e ops).state = .Refunded →
      (runOps H e (ops ++ more)).state = .Refunded)
    ∧ (∀ now, e.state = .Released → refund e now = .error .InvalidState)
    ∧ (∀ s b now, e.state = .Refunded →
      release H e s b now = .error .InvalidState) := by
  refine ⟨?_, ?_, ?_, ?_⟩
  · intro more h
    rw [runOps, List.foldl_append]
    exact runOps_released H _ more h
  · intro more h
    rw [runOps, List.foldl_append]
    exact runOps_refunded H _ more h
  · intro now h
    simp [refund, h]
  · intro s b now h
    simp [release, h]

theorem c8_witness :
    (runOps (fun _ => [])
        ⟨1, [], 10, "maker", EscrowState.Released, none, none⟩
        ([] ++ [EscrowOp.refundOp 99])).state = EscrowState.Released
    ∧ refund ⟨1, [], 10, "maker", EscrowState.Released, none, none⟩ 99
        = .error .InvalidState :=
  ⟨(c8_terminal_states_exclusive (fun _ => [])
      ⟨1, [], 10, "maker", EscrowState.Released, none, none⟩ []).1
      [EscrowOp.refundOp 99] rfl,
   (c8_terminal_states_exclusive (fun _ => [])
      ⟨1, [], 10, "maker", EscrowState.Released, none, none⟩ []).2.2.1
      99 rfl⟩

/-- One iteration's observations by the monitor loop: either the two
read-only view calls succeed (`ok is_active price`, where `price` is the
value read by `get_current_price` after `is_auction_active` returned
`is_active`), or one of them raised (`err`, caught by the loop's
`except` which prints and breaks). -/
inductive PollResult where
  | err
  | ok (is_active : Bool) (price : Nat)

/-- Price of a successful poll. -/
def pollPrice : PollResult → Nat
  | .err => 0
  | .ok _ p => p

/-- A poll that observed the auction active. -/
def pollActive : PollResult → Bool
  | .err => false
  | .ok b _ => b

/-- Embedding of `AuctionMonitor.monitor_auction_price`, the SDK's
async-generator poll loop, run against a stream of observations (the
underlying on-chain view functions are external reads, modelled by the
`PollResult` stream).  The escrow and auction stores are threaded
through untouched because the loop body issues only the two view reads —
no transaction, hence no write to escrow or auction state.  The loop
yields the price while the auction is observed active, and breaks — with
no further yields — at the first inactive observation or exception. -/
def monitor_auction_price (escrows : List EscrowRec)
    (auctions : List AuctionPricing) :
    List PollResult → List Nat × List EscrowRec × List AuctionPricing
  | [] => ([], escrows, auctions)
  | .err :: _ => ([], escrows, auctions)
  | .ok false _ :: _ => ([], escrows, auctions)
  | .ok true p :: rest =>
    let r := monitor_auction_price escrows auctions rest
    (p :: r.1, r.2)

/-- C9: once the monitor loop observes the auction inactive it yields no
further price updates and terminates — the yields are exactly the prices
of the preceding active polls, whatever observations would follow — and
it never writes escrow or auction state: the stores come back unchanged
for every observation stream. -/
theorem c9_monitor_stops_and_reads_only (escrows : List EscrowRec)
    (auctions : List AuctionPricing) :
    (∀ pre p post, (∀ o ∈ pre, pollActive o = true) →
      monitor_auction_price escrows auctions
          (pre ++ PollResult.ok false p :: post)
        = (pre.map pollPrice, escrows, auctions))
    ∧ (∀ polls,
      (monitor_auction_price escrows auctions polls).2
        = (escrows, auctions)) := by
  constructor
  · intro pre p post hpre
    induction pre with
    | nil => rfl
    | cons o t ih =>
      have ho : pollActive o = true := hpre o (List.mem_cons_self o t)
      have ht : ∀ x ∈ t, pollActive x = true :=
        fun x hx => hpre x (List.mem_cons_of_mem o hx)
      cases o with
      | err => simp [pollActive] at ho
      | ok b q =>
        cases b with
        | false => simp [pollActive] at ho
        | true =>
          show monitor_auction_price escrows auctions
              (PollResult.ok true q :: (t ++ PollResult.ok false p :: post))
            = ((PollResult.ok true q :: t).map pollPrice, escrows, auctions)
          rw [monitor_auction_price, ih ht]
          rfl
  · intro polls
    induction polls with
    | nil => rfl
    | cons o t ih =>
      cases o with
      | err => rfl
      | ok b q =>
        cases b with
        | false => rfl
        | true =>
          show (monitor_auction_price escrows auctions
              (PollResult.ok true q :: t)).2 = (escrows, auctions)
          rw [monitor_auction_price]
          exact ih

theorem c9_witness :
    monitor_auction_price [] []
        ([PollResult.ok true 7] ++ PollResult.ok false 3 :: [PollResult.err])
      = ([7], [], []) :=
  (c9_monitor_stops_and_reads_only [] []).1 [PollResult.ok true 7] 3
    [PollResult.err] (by intro o ho; simp at ho; rw [ho]; rfl)

/-- Character-list prefix test (used to embed Python's substring
operator `in`). -/
def leadsWith : List Char → List Char → Bool
  | [], _ => true
  | _ :: _, [] => false
  | a :: as, b :: bs => a == b && leadsWith as bs

/-- All suffixes of a character list. -/
def suffixesOf : List Char → List (List Char)
  | [] => [[]]
  | c :: t => (c :: t) :: suffixesOf t

/-- Embedding of Python's `needle in hay` on strings: some suffix of
`hay` starts with `needle`. -/
def substrOf (needle hay : String) : Bool :=
  (suffixesOf hay.data).any (leadsWith needle.data)

/-- A transaction event as the SDK reads it: its type string and its
`parsed_json` payload, modelled as a total field lookup (only the fields
the SDK actually reads matter).  The Python attribute `type` is a Lean
keyword, hence `etype`. -/
structure SuiEvent where
  etype : String
  parsed_json : String → String

/-- Embedding of the event scan in `CrossChainAuctionSDK.create_escrow`:
return the `escrow_id` payload of the first event whose type contains
`"EscrowCreated"`; with no such event, raise the untyped
`Exception("Escrow creation failed")`, modelled as `Except.error` of the
message. -/
def create_escrow (events : List SuiEvent) : Except String String :=
  match events.find? (fun e => substrOf "EscrowCreated" e.etype) with
  | some e => .ok (e.parsed_json "escrow_id")
  | none => .error "Escrow creation failed"

/-- Embedding of the event scan in
`CrossChainAuctionSDK.create_auction`: the `auction_id` payload of the
first `"AuctionCreated"` event, else the untyped
`Exception("Auction creation failed")`. -/
def create_auction (events : List SuiEvent) : Except String String :=
  match events.find? (fun e => substrOf "AuctionCreated" e.etype) with
  | some e => .ok (e.parsed_json "auction_id")
  | none => .error "Auction creation failed"

/-- Embedding of the event scan in `CrossChainAuctionSDK.place_bid`: the
`(bidder, final_price)` payload (returned as
`{"winner": ..., "final_price": ...}`) of the first `"BidPlaced"` event,
else the untyped `Exception("Bid placement failed")`. -/
def place_bid (events : List SuiEvent) : Except String (String × String) :=
  match events.find? (fun e => substrOf "BidPlaced" e.etype) with
  | some e => .ok (e.parsed_json "bidder", e.parsed_json "final_price")
  | none => .error "Bid placement failed"

theorem find?_first {α : Type} (p : α → Bool) (pre : List α) (e : α)
    (post : List α) (hpre : ∀ x ∈ pre, p x = false) (he : p e = true) :
    (pre ++ e :: post).find? p = some e := by
  induction pre with
  | nil => simp [List.find?_cons_of_pos, he]
  | cons a t ih =>
    have ha : p a = false := hpre a (List.mem_cons_self a t)
    have ht : ∀ x ∈ t, p x = false :=
      fun x hx => hpre x (List.mem_cons_of_mem a hx)
    show List.find? p (a :: (t ++ e :: post)) = some e
    rw [List.find?_cons_of_neg _ (by simp [ha]), ih ht]

theorem find?_all_false {α : Type} (p : α → Bool) (l : List α)
    (h : ∀ x ∈ l, p x = false) : l.find? p = none := by
  rw [List.find?_eq_none]
  intro x hx
  simp [h x hx]

/-- C10: each of the escrow-creation, auction-creation and bid-placement
operations scans the transaction's events and returns the payload of the
first event whose type contains the matching marker (`"EscrowCreated"`,
`"AuctionCreated"`, `"BidPlaced"` respectively); when no event matches,
each raises an untyped generic exception with a fixed message instead of
returning an identifier or a typed failure. -/
theorem c10_event_extraction :
    (∀ pre e post, (∀ x ∈ pre, substrOf "EscrowCreated" x.etype = false) →
      substrOf "EscrowCreated" e.etype = true →
      create_escrow (pre ++ e :: post) = .ok (e.parsed_json "escrow_id"))
    ∧ (∀ events, (∀ x ∈ events, substrOf "EscrowCreated" x.etype = false) →
      create_escrow events = .error "Escrow creation failed")
    ∧ (∀ pre e post, (∀ x ∈ pre, substrOf "AuctionCreated" x.etype = false) →
      substrOf "AuctionCreated" e.etype = true →
      create_auction (pre ++ e :: post) = .ok (e.parsed_json "auction_id"))
    ∧ (∀ events, (∀ x ∈ events, substrOf "AuctionCreated" x.etype = false) →
      create_auction events = .error "Auction creation failed")
    ∧ (∀ pre e post, (∀ x ∈ pre, substrOf "BidPlaced" x.etype = false) →
      substrOf "BidPlaced" e.etype = true →
      place_bid (pre ++ e :: post)
        = .ok (e.parsed_json "bidder", e.parsed_json "final_price"))
    ∧ (∀ events, (∀ x ∈ events, substrOf "BidPlaced" x.etype = false) →
      place_bid events = .error "Bid placement failed") := by
  refine ⟨?_, ?_, ?_, ?_, ?_, ?_⟩
  · intro pre e post hpre he
    rw [create_escrow, find?_first _ pre e post hpre he]
  · intro events h
    rw [create_escrow, find?_all_false _ events h]
  · intro pre e post hpre he
    rw [create_auction, find?_first _ pre e post hpre he]
  · intro events h
    rw [create_auction, find?_all_false _ events h]
  · intro pre e post hpre he
    rw [place_bid, find?_first _ pre e post hpre he]
  · intro events h
    rw [place_bid, find?_all_false _ events h]

theorem c10_witness :
    create_escrow
        ([] ++ ⟨"pkg::cross_chain_auction::EscrowCreated", fun _ => "0xE"⟩
          :: [])
      = .ok "0xE"
    ∧ create_escrow [] = .error "Escrow creation failed"
    ∧ place_bid [] = .error "Bid placement failed" :=
  ⟨c10_event_extraction.1 []
      ⟨"pkg::cross_chain_auction::EscrowCreated", fun _ => "0xE"⟩ []
      (by intro x hx; simp at hx) (by decide),
   c10_event_extraction.2.1 [] (by intro x hx; simp at hx),
   c10_event_extraction.2.2.2.2.2 [] (by intro x hx; simp at hx)⟩

end CrossChainAuctionSDK
